import Mathlib

/-!
# Verification of the direct-messaging subsystem of vacancyamerica-backend

Shallow embedding of the chat core: the cipher codec (`src/models/Message.js`),
the conversation/message stores (`src/models/Conversation.js`, `src/models/Message.js`),
the chat service (`src/controllers/chatController.js`) and the realtime gateway
handlers (`src/socket/chatSocket.js`).

Modelling conventions:
* JS strings are modelled as byte lists (`List Nat`, each element < 256), i.e.
  the UTF-8 bytes of the string.  ASCII literals are spelled out as byte lists.
* MongoDB ObjectIds are modelled as `Nat`.  The JS `[a, b].sort()` on two
  equal-length hex id strings is lexicographic, hence numeric order on the ids.
* The AES-256-GCM primitive from Node's `crypto` module (an external library,
  not repository code) is modelled structurally: a CTR-style keystream cipher
  (`xorStream`) plus an authentication tag over the ciphertext (`computeTag`),
  with decryption succeeding exactly when the tag verifies and the IV is
  non-empty (Node throws on an empty IV for GCM).  SHA-256 key derivation is
  modelled by `hash256`, an arbitrary fixed 32-byte digest function.
* `crypto.randomBytes(16)` is nondeterministic, so the fresh IV is an explicit
  parameter of `encrypt`.
-/

namespace VacancyChat

/-- A byte is modelled as a `Nat`; `isByte` states the < 256 bound. -/
def isByte (n : Nat) : Prop := n < 256

/-- All elements of a list are bytes. -/
def allBytes (l : List Nat) : Prop := ∀ b ∈ l, b < 256

instance (l : List Nat) : Decidable (allBytes l) := by
  unfold allBytes; infer_instance

/-! ## Cipher codec (src/models/Message.js lines 1-84) -/

/-- One mixing step; building block of the modelled hash / keystream. -/
def mix (a b : Nat) : Nat := (a * 131 + b + 7) % 256

/-- Fold a byte list to a single byte; building block of the modelled crypto. -/
def foldKey (l : List Nat) : Nat := l.foldl mix 17

/-- Model of SHA-256: a fixed 32-byte digest of the input
(`crypto.createHash('sha256').update(secret).digest()`). -/
def hash256 (l : List Nat) : List Nat :=
  (List.range 32).map (fun i => mix (foldKey l) i)

/-- The configured server secret (`process.env.CHAT_ENCRYPTION_KEY`),
an arbitrary concrete byte string. -/
def serverSecret : List Nat := [115, 101, 99, 114, 101, 116]

/-- `getEncryptionKey()`: the cached 32-byte key derived by hashing the
server secret. -/
def encryptionKey : List Nat := hash256 serverSecret

/-- Keystream byte `i` of the modelled AES-256-GCM counter mode, determined
by the key and the IV. -/
def ks (key iv : List Nat) (i : Nat) : Nat := mix (foldKey (key ++ iv)) i

/-- XOR a byte list with the keystream starting at counter `i`.  Applying it
twice with the same key/iv is the identity, exactly as in counter mode. -/
def xorStream (key iv : List Nat) : List Nat → Nat → List Nat
  | [], _ => []
  | b :: rest, i => (b ^^^ ks key iv i) :: xorStream key iv rest (i + 1)

/-- The 16-byte GCM authentication tag over the ciphertext, modelled as a
digest of key, IV and ciphertext. -/
def computeTag (key iv ct : List Nat) : List Nat :=
  (List.range 16).map (fun i => mix (foldKey (key ++ iv ++ ct)) i)

/-- Modelled AEAD encryption: returns (ciphertext, authTag) as
`cipher.update`/`cipher.final`/`cipher.getAuthTag` do. -/
def aeadEncrypt (key iv pt : List Nat) : List Nat × List Nat :=
  let ct := xorStream key iv pt 0
  (ct, computeTag key iv ct)

/-- Modelled AEAD decryption (`createDecipheriv` + `setAuthTag` + `update` +
`final`): `none` models the exception Node throws when the tag does not
verify (or the IV is empty, which `createDecipheriv` rejects for GCM). -/
def aeadDecrypt (key iv tag ct : List Nat) : Option (List Nat) :=
  if iv ≠ [] ∧ tag = computeTag key iv ct then some (xorStream key iv ct 0)
  else none

/-! ### Base64 (Node `Buffer.toString('base64')` / `Buffer.from(-, 'base64')`) -/

/-- The base64 alphabet as ASCII codes: A-Z, a-z, 0-9, +, /. -/
def b64alphabet : List Nat :=
  (List.range 26).map (· + 65) ++ (List.range 26).map (· + 97) ++
  (List.range 10).map (· + 48) ++ [43, 47]

/-- ASCII code of the base64 padding character =. -/
def padChar : Nat := 61

/-- The base64 character for a sextet. -/
def sextetChar (s : Nat) : Nat := b64alphabet.getD s 65

/-- Index of a character `c` in a list, if present. -/
def lookupIdx (c : Nat) : List Nat → Option Nat
  | [] => none
  | a :: rest => if a = c then some 0 else (lookupIdx c rest).map (· + 1)

/-- The sextet for a base64 character, if it is in the alphabet. -/
def charSextet (c : Nat) : Option Nat := lookupIdx c b64alphabet

/-- Base64-encode a byte list (with = padding), 3 input bytes per 4 output
characters. -/
def b64encode : List Nat → List Nat
  | [] => []
  | [b1] => [sextetChar (b1 / 4), sextetChar (b1 % 4 * 16), padChar, padChar]
  | [b1, b2] => [sextetChar (b1 / 4), sextetChar (b1 % 4 * 16 + b2 / 16),
                 sextetChar (b2 % 16 * 4), padChar]
  | b1 :: b2 :: b3 :: rest =>
      sextetChar (b1 / 4) :: sextetChar (b1 % 4 * 16 + b2 / 16) ::
      sextetChar (b2 % 16 * 4 + b3 / 64) :: sextetChar (b3 % 64) :: b64encode rest

/-- Base64-decode a character list.  Total: like Node's `Buffer.from`, malformed
input yields a (possibly truncated) byte list rather than an error. -/
def b64decode : List Nat → List Nat
  | c1 :: c2 :: c3 :: c4 :: rest =>
    match charSextet c1, charSextet c2 with
    | some s1, some s2 =>
      let byte1 := s1 * 4 + s2 / 16
      if c3 = padChar then [byte1]
      else match charSextet c3 with
        | some s3 =>
          let byte2 := s2 % 16 * 16 + s3 / 4
          if c4 = padChar then [byte1, byte2]
          else match charSextet c4 with
            | some s4 => byte1 :: byte2 :: (s3 % 4 * 64 + s4) :: b64decode rest
            | none => [byte1, byte2]
        | none => [byte1]
    | _, _ => []
  | _ => []

/-! ### Hex decoding (Node `Buffer.from(-, 'hex')`) -/

/-- The value of an ASCII hex digit, if it is one. -/
def hexDigit (c : Nat) : Option Nat :=
  if 48 ≤ c ∧ c ≤ 57 then some (c - 48)
  else if 97 ≤ c ∧ c ≤ 102 then some (c - 87)
  else if 65 ≤ c ∧ c ≤ 70 then some (c - 55)
  else none

/-- Node's hex decoding: consume digit pairs, stop silently at the first
invalid pair or odd leftover character (`Buffer.from(s, 'hex')` truncates,
it never throws). -/
def hexDecode : List Nat → List Nat
  | c1 :: c2 :: rest =>
    match hexDigit c1, hexDigit c2 with
    | some h, some l => (h * 16 + l) :: hexDecode rest
    | _, _ => []
  | _ => []

/-! ### Wire format -/

/-- ASCII code of the colon. -/
def colon : Nat := 58

/-- The byte values of the ASCII wire-format tag "enc:". -/
def encTag : List Nat := [101, 110, 99, 58]

/-- The bytes of the fixed sentinel string "[Encrypted message]". -/
def sentinel : List Nat :=
  [91, 69, 110, 99, 114, 121, 112, 116, 101, 100, 32,
   109, 101, 115, 115, 97, 103, 101, 93]

/-- JS `s.split(':')` on byte lists.  The result is always non-empty. -/
def splitColon : List Nat → List (List Nat)
  | [] => [[]]
  | c :: rest =>
    match splitColon rest with
    | [] => [[]]
    | h :: t => if c = colon then [] :: h :: t else (c :: h) :: t

/-- JS `parts.join(':')` on byte lists. -/
def joinColon : List (List Nat) → List Nat
  | [] => []
  | [h] => h
  | h :: t => h ++ colon :: joinColon t

/-- `Message.encrypt` (src/models/Message.js lines 17-35): no-op on the empty
(falsy) string, otherwise `'enc:' + base64(iv ++ authTag ++ ciphertext)`.
The fresh random IV (`crypto.randomBytes(16)`) is an explicit parameter.
The `try/catch` fallback to plaintext guards library failures that have no
counterpart in the model. -/
def encrypt (iv text : List Nat) : List Nat :=
  if text = [] then text
  else
    let ect := aeadEncrypt encryptionKey iv text
    encTag ++ b64encode (iv ++ ect.2 ++ ect.1)

/-- `Message.decrypt` (src/models/Message.js lines 37-84).  Three branches:
the `enc:` tagged format (fixed offsets 16/32 into the base64-decoded
buffer); the legacy colon-delimited hex triplet, attempted whenever the text
contains a colon and splits into at least 3 parts; otherwise the text is
returned unchanged.  A decryption exception inside either branch is caught
and mapped to the sentinel. -/
def decrypt (s : List Nat) : List Nat :=
  if s = [] then s
  else if s.take 4 = encTag then
    let combined := b64decode (s.drop 4)
    let iv := combined.take 16
    let tag := (combined.drop 16).take 16
    let ct := combined.drop 32
    match aeadDecrypt encryptionKey iv tag ct with
    | some pt => pt
    | none => sentinel
  else if colon ∈ s then
    let parts := splitColon s
    if 3 ≤ parts.length then
      let iv := hexDecode (parts.getD 0 [])
      let tag := hexDecode (parts.getD 1 [])
      let ct := hexDecode (joinColon (parts.drop 2))
      match aeadDecrypt encryptionKey iv tag ct with
      | some pt => pt
      | none => sentinel
    else s
  else s

/-! ## Data model

`UserRec` keeps only the fields the chat subsystem reads (`friends`,
`blocked_users`); the other user fields (username, email, ...) are never
consulted here.  `Msg` omits the `type` field (`'text' | 'system'`, default
`'text'`), which no modelled operation reads.  Timestamps are `Nat`. -/

/-- A user document (the chat-relevant projection). -/
structure UserRec where
  uid : Nat
  friends : List Nat
  blocked_users : List Nat
deriving DecidableEq, Repr

/-- A conversation document (src/models/Conversation.js): participants,
denormalized last-message snapshot (text, sender, createdAt) and the
`updatedAt` timestamp. -/
structure Conversation where
  cid : Nat
  participants : List Nat
  lastMessage : Option (List Nat × Nat × Nat)
  updatedAt : Nat
deriving DecidableEq, Repr

/-- A message document (src/models/Message.js schema). -/
structure Msg where
  mid : Nat
  conversationId : Nat
  sender : Nat
  text : List Nat
  readBy : List Nat
  createdAt : Nat
deriving DecidableEq, Repr

/-- The persistent state: the three collections, plus a fresh-id source
modelling ObjectId generation. -/
structure DB where
  users : List UserRec
  convs : List Conversation
  msgs : List Msg
  nextId : Nat
deriving DecidableEq, Repr

/-- Outcome of a REST handler: a value with HTTP 2xx, or
`res.status(code).json({message})`. -/
inductive ChatResult (α : Type) where
  | ok : α → ChatResult α
  | err : Nat → String → ChatResult α
deriving DecidableEq, Repr

/-- Whether a handler outcome is a success. -/
def ChatResult.isOk {α : Type} : ChatResult α → Bool
  | .ok _ => true
  | .err _ _ => false

/-- A realtime event emitted with `io.to(room).emit(...)`: the first `Nat` is
the private channel (user id) it is addressed to. -/
inductive Event where
  | newMessage (toUser : Nat) (conversationId : Nat) (mid : Nat)
  | messagesRead (toUser : Nat) (conversationId : Nat) (readBy : Nat)
  | userTyping (toUser : Nat) (conversationId : Nat) (userId : Nat)
  | userStopTyping (toUser : Nat) (conversationId : Nat) (userId : Nat)
deriving DecidableEq, Repr

/-- `User.findById`. -/
def findUser (db : DB) (uid : Nat) : Option UserRec :=
  db.users.find? (fun u => u.uid = uid)

/-- `Conversation.findById`. -/
def findConv (db : DB) (cid : Nat) : Option Conversation :=
  db.convs.find? (fun c => c.cid = cid)

/-- `Message.findById`. -/
def findMsg (db : DB) (mid : Nat) : Option Msg :=
  db.msgs.find? (fun m => m.mid = mid)

/-! ## Chat service (src/controllers/chatController.js) -/

/-- `areFriends(userId1, userId2)` (chatController.js lines 7-13): looks up
only `userId1`'s document and checks that it lists `userId2` as a friend and
has not blocked `userId2`.  `userId2`'s own lists are not consulted. -/
def areFriends (db : DB) (userId1 userId2 : Nat) : Bool :=
  match findUser db userId1 with
  | none => false
  | some u =>
    (u.friends.any (fun f => f = userId2)) &&
    !(u.blocked_users.any (fun b => b = userId2))

/-- The eligibility predicate in the words of the spec (§4.4): A and B are
mutual friends and neither has blocked the other.  Stated only to be compared
with the source's `areFriends`. -/
def specCanMessage (db : DB) (a b : Nat) : Bool :=
  match findUser db a, findUser db b with
  | some ua, some ub =>
    (ua.friends.any (fun f => f = b)) && (ub.friends.any (fun f => f = a)) &&
    !(ua.blocked_users.any (fun x => x = b)) &&
    !(ub.blocked_users.any (fun x => x = a))
  | _, _ => false

/-- `[userId.toString(), participantId].sort()`: the sorted pair. -/
def sortPair (a b : Nat) : List Nat := if a ≤ b then [a, b] else [b, a]

/-- The `findOne({participants: {$all: participants, $size: 2}})` filter. -/
def pairQuery (parts : List Nat) (c : Conversation) : Bool :=
  (parts.all (fun x => c.participants.any (fun y => y = x))) &&
  c.participants.length = 2

/-- `Conversation.create({participants})` against the collection's unique
index on the (sorted) `participants` array: the insert is refused with a
duplicate-key error when a document with the same participants array exists.
(MongoDB's multikey behavior makes the real constraint at least this strict.)
On success the new document gets a fresh id and empty snapshot. -/
def insertConv (db : DB) (parts : List Nat) : Option (Conversation × DB) :=
  if db.convs.any (fun c => c.participants = parts) then none
  else
    let c : Conversation := ⟨db.nextId, parts, none, 0⟩
    some (c, { db with convs := db.convs ++ [c], nextId := db.nextId + 1 })

/-- `startConversation` (chatController.js lines 17-57), with the find step
and the create step each taking an explicit database state so that a racing
insert between the two can be expressed (`dbFind` = state seen by the
`findOne`, `dbCreate` = state hit by the `create`).  A duplicate-key error
from `create` is not caught anywhere before the handler's generic `catch`,
which answers 500 "Server error". -/
def startConversationRace (dbFind dbCreate : DB) (userId : Nat)
    (participantId : Option Nat) : ChatResult Conversation × DB :=
  match participantId with
  | none => (.err 400 "participantId is required", dbCreate)
  | some pid =>
    if userId = pid then (.err 400 "Cannot start conversation with yourself", dbCreate)
    else if !areFriends dbFind userId pid then (.err 403 "You must be friends to start a conversation", dbCreate)
    else
      let participants := sortPair userId pid
      match dbFind.convs.find? (pairQuery participants) with
      | some c => (.ok c, dbCreate)
      | none =>
        match insertConv dbCreate participants with
        | some (c, db') => (.ok c, db')
        | none => (.err 500 "Server error", dbCreate)

/-- The sequential (race-free) `startConversation`: find and create observe
the same state. -/
def startConversation (db : DB) (userId : Nat) (participantId : Option Nat) :
    ChatResult Conversation × DB :=
  startConversationRace db db userId participantId

/-- The state left behind by a bare `Conversation.create({participants})`
call (the store-level operation, without the preceding `findOne`): on a
duplicate-key refusal the collection is unchanged. -/
def rawCreateDb (db : DB) (parts : List Nat) : DB :=
  match insertConv db parts with
  | some x => x.2
  | none => db

/-- The `.sort({createdAt: -1})` comparison: newer messages first. -/
def newerFirst (a b : Msg) : Prop := b.createdAt ≤ a.createdAt

instance : DecidableRel newerFirst := fun _ _ => Nat.decLe _ _

instance : IsTotal Msg newerFirst := ⟨fun a b => Nat.le_total b.createdAt a.createdAt⟩

instance : IsTrans Msg newerFirst := ⟨fun _ _ _ h1 h2 => Nat.le_trans h2 h1⟩

/-- The `.sort({updatedAt: -1})` comparison on conversations. -/
def recentFirst (a b : Conversation) : Prop := b.updatedAt ≤ a.updatedAt

instance : DecidableRel recentFirst := fun _ _ => Nat.decLe _ _

/-- `Message.find({conversationId})`: the messages of one conversation, in
collection order. -/
def convMsgs (db : DB) (cid : Nat) : List Msg :=
  db.msgs.filter (fun m => m.conversationId = cid)

/-- The cursor part of the `getMessages` query: when `before` is given and
resolves to a message, restrict to `createdAt` strictly less than that
message's timestamp; when it does not resolve, the cursor is silently
dropped. -/
def cursorFilter (db : DB) (before : Option Nat) (base : List Msg) : List Msg :=
  match before with
  | none => base
  | some b =>
    match findMsg db b with
    | none => base
    | some cm => base.filter (fun m => m.createdAt < cm.createdAt)

/-- The first `limit + 1` rows of the cursor query, newest first
(`.sort({createdAt: -1}).limit(limit + 1)`). -/
def sortedFetch (db : DB) (cid : Nat) (before : Option Nat) (limit : Nat) :
    List Msg :=
  (List.insertionSort newerFirst (cursorFilter db before (convMsgs db cid))).take
    (limit + 1)

/-- The JSON body answered by `getMessages`: chronological messages (texts
decrypted), the `hasMore` flag, and the next cursor (the id of the oldest
returned message). -/
structure HistoryPage where
  messages : List Msg
  hasMore : Bool
  cursor : Option Nat
deriving DecidableEq, Repr

/-- The filter of the `updateMany` read-marking query and of the unread
count: same conversation, not sent by the reader, reader not yet in
`readBy`. -/
def unreadPred (userId cid : Nat) (m : Msg) : Bool :=
  m.conversationId = cid && !(m.sender = userId) &&
  !(m.readBy.any (fun r => r = userId))

/-- The `$addToSet: {readBy: userId}` update applied to one message by the
read-marking `updateMany`. -/
def markReadUpdate (userId cid : Nat) (m : Msg) : Msg :=
  if unreadPred userId cid m then { m with readBy := m.readBy ++ [userId] }
  else m

/-- `getMessages` (chatController.js lines 115-170): participant-gated
cursor pagination, newest-first fetch of `limit + 1` rows, `pop` of the
extra row, decryption, chronological reversal, and the read-marking
`updateMany` side effect.  The handler emits no realtime events. -/
def getMessages (db : DB) (userId cid : Nat) (before : Option Nat)
    (limit : Nat) : ChatResult HistoryPage × DB × List Event :=
  match findConv db cid with
  | none => (.err 404 "Conversation not found", db, [])
  | some conv =>
    if !conv.participants.any (fun p => p = userId) then
      (.err 403 "Not a participant", db, [])
    else
      let fetched := sortedFetch db cid before limit
      let hasMore := decide (limit < fetched.length)
      let page := if hasMore then fetched.take limit else fetched
      let decrypted := page.map (fun m => { m with text := decrypt m.text })
      let chrono := decrypted.reverse
      let cursor := chrono.head?.map (fun m => m.mid)
      let db' := { db with msgs := db.msgs.map (markReadUpdate userId cid) }
      (.ok ⟨chrono, hasMore, cursor⟩, db', [])

/-- Chained history retrieval, as a client follows the pagination contract:
start with no cursor, repeat with the returned cursor while `hasMore` is
true, threading the state (each fetch marks reads).  Pages are accumulated
older-first, so a complete chain yields the full chronological list.
`fuel` bounds the number of requests. -/
def historyChain (userId cid : Nat) (limit : Nat) :
    DB → Option Nat → Nat → List Msg
  | _, _, 0 => []
  | db, cursor, fuel + 1 =>
    match getMessages db userId cid cursor limit with
    | (.ok page, db', _) =>
      (if page.hasMore then
        match page.cursor with
        | some c => historyChain userId cid limit db' (some c) fuel
        | none => []
      else []) ++ page.messages
    | (.err _ _, _, _) => []

/-- One inbox row of `getConversations`: the conversation with its
`lastMessage` text decrypted, and the unread count. -/
structure InboxEntry where
  conv : Conversation
  unreadCount : Nat
deriving DecidableEq, Repr

/-- `getConversations` (chatController.js lines 60-113): the caller's
conversations, most recent activity first, page/limit windowed, with
decrypted `lastMessage` and per-conversation unread counts.  Read-only. -/
def getConversations (db : DB) (userId : Nat) (page limit : Nat) :
    ChatResult (List InboxEntry) × DB :=
  let mine := db.convs.filter (fun c => c.participants.any (fun p => p = userId))
  let sorted := List.insertionSort recentFirst mine
  let paged := (sorted.drop ((page - 1) * limit)).take limit
  let entries := paged.map (fun c =>
    ⟨{ c with lastMessage := c.lastMessage.map (fun lm => (decrypt lm.1, lm.2)) },
     db.msgs.countP (unreadPred userId c.cid)⟩)
  (.ok entries, db)

/-- JS whitespace for `String.prototype.trim`. -/
def isSpace (c : Nat) : Bool := c = 32 || c = 9 || c = 10 || c = 13

/-- `text.trim()` on byte lists. -/
def trimBytes (l : List Nat) : List Nat :=
  ((l.dropWhile isSpace).reverse.dropWhile isSpace).reverse

/-- `sendMessage` (chatController.js lines 174-249): validation of the text
(`!text || !text.trim()`), participant gate, explicit encryption, message
insert with the sender pre-seeded in `readBy`, last-message snapshot update
(sealed form), plaintext echoed to the caller, and a `newMessage` event per
other participant.  The external `xss` sanitizer is modelled as the identity
on the trimmed text (no claim concerns its behavior); `now` is the message's
`createdAt`; `iv` is the random IV handed to `encrypt`. -/
def sendMessage (db : DB) (userId cid : Nat) (text : Option (List Nat))
    (iv : List Nat) (now : Nat) : ChatResult Msg × DB × List Event :=
  match text with
  | none => (.err 400 "Message text is required", db, [])
  | some t =>
    if trimBytes t = [] then (.err 400 "Message text is required", db, [])
    else
      match findConv db cid with
      | none => (.err 404 "Conversation not found", db, [])
      | some conv =>
        if !conv.participants.any (fun p => p = userId) then
          (.err 403 "Not a participant", db, [])
        else
          let sanitized := trimBytes t
          let enc := encrypt iv sanitized
          let msg : Msg := ⟨db.nextId, cid, userId, enc, [userId], now⟩
          let db1 := { db with msgs := db.msgs ++ [msg], nextId := db.nextId + 1 }
          let db2 := { db1 with convs := db1.convs.map (fun c =>
            if c.cid = cid then
              { c with lastMessage := some (enc, userId, now), updatedAt := now }
            else c) }
          let recipients := conv.participants.filter (fun p => !(p = userId))
          (.ok { msg with text := sanitized }, db2,
           recipients.map (fun r => .newMessage r cid msg.mid))

/-! ## Realtime gateway handlers (src/socket/chatSocket.js) -/

/-- The socket `markRead` handler (chatSocket.js lines 37-68): silent return
when the conversation is missing or the caller is not a participant; the
read-marking `updateMany`; a `messagesRead` event to each other participant
only when `result.modifiedCount > 0`. -/
def markReadHandler (db : DB) (userId cid : Nat) : DB × List Event :=
  match findConv db cid with
  | none => (db, [])
  | some conv =>
    if !conv.participants.any (fun p => p = userId) then (db, [])
    else
      let modifiedCount := db.msgs.countP (unreadPred userId cid)
      let db' := { db with msgs := db.msgs.map (markReadUpdate userId cid) }
      let events :=
        if 0 < modifiedCount then
          (conv.participants.filter (fun p => !(p = userId))).map
            (fun p => Event.messagesRead p cid userId)
        else []
      (db', events)

/-- The socket `typing` handler (chatSocket.js lines 71-86): looks the
conversation up and relays `userTyping` to every participant other than the
emitting user.  The emitter's own membership in the conversation is never
checked. -/
def typingHandler (db : DB) (userId cid : Nat) : List Event :=
  match findConv db cid with
  | none => []
  | some conv =>
    (conv.participants.filter (fun p => !(p = userId))).map
      (fun p => Event.userTyping p cid userId)

/-- The socket `stopTyping` handler (chatSocket.js lines 88-103), identical
to `typing` up to the event name. -/
def stopTypingHandler (db : DB) (userId cid : Nat) : List Event :=
  match findConv db cid with
  | none => []
  | some conv =>
    (conv.participants.filter (fun p => !(p = userId))).map
      (fun p => Event.userStopTyping p cid userId)

/-! ## Reachability

One step of the subsystem: any REST handler, any socket handler, or — to
express creations racing past the `findOne` — a bare store-level `create`
for a sorted pair of distinct users, as issued by a concurrent
`startConversation`. -/

/-- One state transition of the chat subsystem. -/
inductive Step : DB → DB → Prop where
  | start (db : DB) (u : Nat) (p : Option Nat) :
      Step db (startConversation db u p).2
  | rawCreate (db : DB) (a b : Nat) (hne : a ≠ b) :
      Step db (rawCreateDb db (sortPair a b))
  | inbox (db : DB) (u : Nat) (page limit : Nat) :
      Step db (getConversations db u page limit).2
  | history (db : DB) (u cid : Nat) (before : Option Nat) (limit : Nat) :
      Step db (getMessages db u cid before limit).2.1
  | send (db : DB) (u cid : Nat) (text : Option (List Nat)) (iv : List Nat)
      (now : Nat) : Step db (sendMessage db u cid text iv now).2.1
  | sockRead (db : DB) (u cid : Nat) : Step db (markReadHandler db u cid).1

/-- Reachability through any number of subsystem steps. -/
def Reach (db0 db : DB) : Prop := Relation.ReflTransGen Step db0 db

/-! ## Lemmas about the cipher codec -/

theorem mix_lt (a b : Nat) : mix a b < 256 := Nat.mod_lt _ (by omega)

theorem charSextet_sextetChar : ∀ s : Nat, s < 64 → charSextet (sextetChar s) = some s := by
  decide

theorem sextetChar_ne_pad : ∀ s : Nat, s < 64 → sextetChar s ≠ padChar := by
  decide

theorem b64_roundtrip : ∀ l : List Nat, allBytes l → b64decode (b64encode l) = l
  | [], _ => rfl
  | [b1], h => by
    have hb1 : b1 < 256 := h b1 (by simp)
    have h1 := charSextet_sextetChar (b1 / 4) (by omega)
    have h2 := charSextet_sextetChar (b1 % 4 * 16) (by omega)
    simp only [b64encode, b64decode, h1, h2, if_true]
    simp only [List.cons.injEq, and_true]
    omega
  | [b1, b2], h => by
    have hb1 : b1 < 256 := h b1 (by simp)
    have hb2 : b2 < 256 := h b2 (by simp)
    have h1 := charSextet_sextetChar (b1 / 4) (by omega)
    have h2 := charSextet_sextetChar (b1 % 4 * 16 + b2 / 16) (by omega)
    have h3 := charSextet_sextetChar (b2 % 16 * 4) (by omega)
    have hp3 := sextetChar_ne_pad (b2 % 16 * 4) (by omega)
    simp only [b64encode, b64decode, h1, h2, h3]
    rw [if_neg hp3]
    simp only [if_true, List.cons.injEq, and_true]
    constructor <;> omega
  | b1 :: b2 :: b3 :: rest, h => by
    have hb1 : b1 < 256 := h b1 (by simp)
    have hb2 : b2 < 256 := h b2 (by simp)
    have hb3 : b3 < 256 := h b3 (by simp)
    have h1 := charSextet_sextetChar (b1 / 4) (by omega)
    have h2 := charSextet_sextetChar (b1 % 4 * 16 + b2 / 16) (by omega)
    have h3 := charSextet_sextetChar (b2 % 16 * 4 + b3 / 64) (by omega)
    have h4 := charSextet_sextetChar (b3 % 64) (by omega)
    have hp3 := sextetChar_ne_pad (b2 % 16 * 4 + b3 / 64) (by omega)
    have hp4 := sextetChar_ne_pad (b3 % 64) (by omega)
    have hrest : b64decode (b64encode rest) = rest :=
      b64_roundtrip rest (fun b hb => h b (by simp [hb]))
    simp only [b64encode, b64decode, h1, h2, h3, h4, hrest]
    rw [if_neg hp3, if_neg hp4]
    simp only [List.cons.injEq, and_true]
    refine ⟨by omega, by omega, by omega⟩

theorem xorStream_length (key iv : List Nat) :
    ∀ (l : List Nat) (i : Nat), (xorStream key iv l i).length = l.length
  | [], _ => rfl
  | _ :: rest, i => by
    simp only [xorStream, List.length_cons, xorStream_length key iv rest (i + 1)]

theorem xorStream_bytes (key iv : List Nat) :
    ∀ (l : List Nat) (i : Nat), allBytes l → allBytes (xorStream key iv l i)
  | [], _, _ => by intro b hb; cases hb
  | x :: rest, i, h => by
    intro b hb
    rcases hb with _ | ⟨_, hb⟩
    · have hx : x < 256 := h x (by simp)
      have : x ^^^ ks key iv i < 2 ^ 8 :=
        Nat.xor_lt_two_pow (by omega) (by have := mix_lt (foldKey (key ++ iv)) i; simpa [ks])
      omega
    · exact xorStream_bytes key iv rest (i + 1) (fun c hc => h c (by simp [hc])) b hb

theorem xorStream_involutive (key iv : List Nat) :
    ∀ (l : List Nat) (i : Nat), xorStream key iv (xorStream key iv l i) i = l
  | [], _ => rfl
  | b :: rest, i => by
    simp only [xorStream, Nat.xor_cancel_right, List.cons.injEq, true_and]
    exact xorStream_involutive key iv rest (i + 1)

theorem computeTag_length (key iv ct : List Nat) : (computeTag key iv ct).length = 16 := by
  simp [computeTag]

theorem computeTag_bytes (key iv ct : List Nat) : allBytes (computeTag key iv ct) := by
  intro b hb
  simp only [computeTag, List.mem_map] at hb
  obtain ⟨i, _, rfl⟩ := hb
  exact mix_lt _ _

/-- C2's core: decrypting a freshly sealed non-empty plaintext recovers it.
Stated below as `claim2_seal_open_roundtrip`. -/
theorem decrypt_encrypt (iv p : List Nat) (h16 : iv.length = 16)
    (hivb : allBytes iv) (hpb : allBytes p) (hne : p ≠ []) :
    decrypt (encrypt iv p) = p := by
  have hct : allBytes (xorStream encryptionKey iv p 0) := xorStream_bytes _ _ _ _ hpb
  have htag : allBytes (computeTag encryptionKey iv (xorStream encryptionKey iv p 0)) :=
    computeTag_bytes _ _ _
  rw [encrypt, if_neg hne]
  simp only [aeadEncrypt]
  set tag := computeTag encryptionKey iv (xorStream encryptionKey iv p 0) with htagdef
  set ct := xorStream encryptionKey iv p 0 with hctdef
  have hall : allBytes (iv ++ tag ++ ct) := by
    intro b hb
    rcases List.mem_append.mp hb with hb' | hctm
    · rcases List.mem_append.mp hb' with hivm | htagm
      · exact hivb b hivm
      · exact htag b htagm
    · exact hct b hctm
  have hnenil : encTag ++ b64encode (iv ++ tag ++ ct) ≠ [] := by
    simp [encTag]
  rw [decrypt, if_neg hnenil]
  have htake : (encTag ++ b64encode (iv ++ tag ++ ct)).take 4 = encTag :=
    List.take_left' (by simp [encTag])
  rw [if_pos htake]
  have hdrop : (encTag ++ b64encode (iv ++ tag ++ ct)).drop 4 = b64encode (iv ++ tag ++ ct) :=
    List.drop_left' (by simp [encTag])
  rw [hdrop, b64_roundtrip _ hall]
  have htaglen : tag.length = 16 := by
    rw [htagdef, computeTag_length]
  have hassoc : iv ++ tag ++ ct = iv ++ (tag ++ ct) := by simp
  have hivtake : (iv ++ tag ++ ct).take 16 = iv := by
    rw [hassoc]
    exact List.take_left' h16
  have htagtake : ((iv ++ tag ++ ct).drop 16).take 16 = tag := by
    rw [hassoc, List.drop_left' h16]
    exact List.take_left' htaglen
  have hctdrop : (iv ++ tag ++ ct).drop 32 = ct := by
    exact List.drop_left' (by simp [h16, htaglen])
  simp only [hivtake, htagtake, hctdrop]
  have hivne : iv ≠ [] := by
    intro hc
    rw [hc] at h16
    simp at h16
  simp only [aeadDecrypt, hivne, ne_eq, not_false_eq_true, true_and, if_pos htagdef]
  show xorStream encryptionKey iv (xorStream encryptionKey iv p 0) 0 = p
  exact xorStream_involutive encryptionKey iv p 0

/-- The exact failure condition of `decrypt`'s `enc:` branch: the wire text
carries the tag but the authenticated decryption throws. -/
def encBranchFails (s : List Nat) : Prop :=
  s.take 4 = encTag ∧
  aeadDecrypt encryptionKey ((b64decode (s.drop 4)).take 16)
    (((b64decode (s.drop 4)).drop 16).take 16) ((b64decode (s.drop 4)).drop 32) = none

instance (s : List Nat) : Decidable (encBranchFails s) := by
  unfold encBranchFails; infer_instance

/-- When authenticated decryption of a tagged body fails, `decrypt` returns
the sentinel instead of raising. -/
theorem decrypt_sentinel_of_fail (s : List Nat) (h : encBranchFails s) :
    decrypt s = sentinel := by
  obtain ⟨htake, hfail⟩ := h
  have hne : s ≠ [] := by
    intro hc
    rw [hc] at htake
    simp [encTag] at htake
  rw [decrypt, if_neg hne, if_pos htake]
  simp only [hfail]

theorem splitColon_ne_nil : ∀ s : List Nat, splitColon s ≠ []
  | [] => by simp [splitColon]
  | c :: rest => by
    have := splitColon_ne_nil rest
    rw [splitColon]
    rcases hs : splitColon rest with _ | ⟨h, t⟩
    · simp
    · by_cases hc : c = colon <;> simp [hc]

theorem splitColon_length : ∀ s : List Nat, (splitColon s).length = s.count colon + 1
  | [] => by simp [splitColon]
  | c :: rest => by
    have ih := splitColon_length rest
    obtain ⟨h, t, hs⟩ := List.exists_cons_of_ne_nil (splitColon_ne_nil rest)
    rw [hs] at ih
    simp only [List.length_cons] at ih
    by_cases hc : c = colon
    · subst hc
      simp only [splitColon, hs, if_true, List.length_cons, List.count_cons_self]
      omega
    · simp only [splitColon, hs, if_neg hc, List.length_cons,
        List.count_cons_of_ne (fun e => hc e.symm)]
      omega

/-! ## Lemmas about the conversation store invariant (C1, C5) -/

/-- The structural invariant of the conversation collection: every stored
participants array is a strictly sorted two-element pair, and no two stored
conversations share the same array (the unique index). -/
def ConvListInv (l : List Conversation) : Prop :=
  (∀ c ∈ l, ∃ a b : Nat, a < b ∧ c.participants = [a, b]) ∧
  (∀ c1 ∈ l, ∀ c2 ∈ l, c1.participants = c2.participants → c1 = c2)

/-- The invariant, read on a database state. -/
def ConvInv (db : DB) : Prop := ConvListInv db.convs

theorem sortPair_sorted (a b : Nat) (h : a ≠ b) :
    ∃ x y : Nat, x < y ∧ sortPair a b = [x, y] := by
  by_cases hle : a ≤ b
  · refine ⟨a, b, by omega, ?_⟩
    unfold sortPair
    rw [if_pos hle]
  · refine ⟨b, a, by omega, ?_⟩
    unfold sortPair
    rw [if_neg hle]

theorem rawCreate_preserves (db : DB) (parts : List Nat)
    (hp : ∃ x y : Nat, x < y ∧ parts = [x, y]) (h : ConvInv db) :
    ConvInv (rawCreateDb db parts) := by
  unfold rawCreateDb insertConv
  by_cases hdup : db.convs.any (fun c => c.participants = parts)
  · simpa [hdup] using h
  · rw [if_neg hdup]
    have hnodup : ∀ c ∈ db.convs, c.participants ≠ parts := by
      intro c hc
      have := (List.any_eq_true.not.mp hdup)
      push_neg at this
      have h2 := this c hc
      simpa using h2
    constructor
    · intro c hc
      rcases List.mem_append.mp hc with hold | hnew
      · exact h.1 c hold
      · have : c = ⟨db.nextId, parts, none, 0⟩ := by simpa using hnew
        subst this
        exact hp
    · intro c1 hc1 c2 hc2 heq
      rcases List.mem_append.mp hc1 with h1 | h1 <;>
        rcases List.mem_append.mp hc2 with h2 | h2
      · exact h.2 c1 h1 c2 h2 heq
      · have : c2 = ⟨db.nextId, parts, none, 0⟩ := by simpa using h2
        subst this
        exact absurd heq (hnodup c1 h1)
      · have : c1 = ⟨db.nextId, parts, none, 0⟩ := by simpa using h1
        subst this
        exact absurd heq.symm (hnodup c2 h2)
      · have e1 : c1 = ⟨db.nextId, parts, none, 0⟩ := by simpa using h1
        have e2 : c2 = ⟨db.nextId, parts, none, 0⟩ := by simpa using h2
        rw [e1, e2]

/-- The second component of a (possibly raced) `startConversation` is either
the untouched create-time state or the state left by the bare store-level
create of a sorted distinct pair. -/
theorem startRace_snd (dbF dbC : DB) (u : Nat) (p : Option Nat) :
    (startConversationRace dbF dbC u p).2 = dbC ∨
    ∃ pid : Nat, u ≠ pid ∧
      (startConversationRace dbF dbC u p).2 = rawCreateDb dbC (sortPair u pid) := by
  cases p with
  | none => left; rfl
  | some pid =>
    by_cases h1 : u = pid
    · left
      simp only [startConversationRace, if_pos h1]
    · by_cases h2 : (!areFriends dbF u pid) = true
      · left
        simp only [startConversationRace, if_neg h1, if_pos h2]
      · cases hf : dbF.convs.find? (pairQuery (sortPair u pid)) with
        | some c =>
          left
          simp only [startConversationRace, if_neg h1, if_neg h2, hf]
        | none =>
          obtain hin | ⟨c0, db0, hi⟩ :
              insertConv dbC (sortPair u pid) = none ∨
              ∃ c0 db0, insertConv dbC (sortPair u pid) = some (c0, db0) := by
            cases hx : insertConv dbC (sortPair u pid) with
            | none => exact Or.inl rfl
            | some x =>
              obtain ⟨c0, db0⟩ := x
              exact Or.inr ⟨c0, db0, rfl⟩
          · left
            simp only [startConversationRace, if_neg h1, if_neg h2, hf, hin]
          · right
            refine ⟨pid, h1, ?_⟩
            simp only [startConversationRace, if_neg h1, if_neg h2, hf, hi, rawCreateDb]

theorem convListInv_map (l : List Conversation) (f : Conversation → Conversation)
    (hf : ∀ c, (f c).participants = c.participants) (h : ConvListInv l) :
    ConvListInv (l.map f) := by
  constructor
  · intro c hc
    obtain ⟨c0, hc0, rfl⟩ := List.mem_map.mp hc
    rw [hf]
    exact h.1 c0 hc0
  · intro c1 hc1 c2 hc2 heq
    obtain ⟨u1, hu1, rfl⟩ := List.mem_map.mp hc1
    obtain ⟨u2, hu2, rfl⟩ := List.mem_map.mp hc2
    rw [hf, hf] at heq
    rw [h.2 u1 hu1 u2 hu2 heq]

theorem getMessages_convs (db : DB) (u cid : Nat) (before : Option Nat)
    (limit : Nat) : ((getMessages db u cid before limit).2.1).convs = db.convs := by
  cases hf : findConv db cid with
  | none => simp [getMessages, hf]
  | some conv =>
    by_cases hp : (!conv.participants.any (fun p => p = u)) = true
    · simp [getMessages, hf, hp]
    · simp [getMessages, hf, hp]

theorem markReadHandler_convs (db : DB) (u cid : Nat) :
    ((markReadHandler db u cid).1).convs = db.convs := by
  cases hf : findConv db cid with
  | none => simp [markReadHandler, hf]
  | some conv =>
    by_cases hp : (!conv.participants.any (fun p => p = u)) = true
    · simp [markReadHandler, hf, hp]
    · simp [markReadHandler, hf, hp]

theorem sendMessage_convs (db : DB) (u cid : Nat) (text : Option (List Nat))
    (iv : List Nat) (now : Nat) :
    ∃ f : Conversation → Conversation,
      (∀ c, (f c).participants = c.participants) ∧
      ((sendMessage db u cid text iv now).2.1).convs = db.convs.map f := by
  cases text with
  | none => exact ⟨id, fun _ => rfl, by simp [sendMessage]⟩
  | some t =>
    by_cases ht : trimBytes t = []
    · exact ⟨id, fun _ => rfl, by simp [sendMessage, ht]⟩
    · cases hf : findConv db cid with
      | none => exact ⟨id, fun _ => rfl, by simp [sendMessage, ht, hf]⟩
      | some conv =>
        by_cases hp : (!conv.participants.any (fun p => p = u)) = true
        · exact ⟨id, fun _ => rfl, by simp [sendMessage, ht, hf, hp]⟩
        · refine ⟨fun c => if c.cid = cid then
            { c with lastMessage := some (encrypt iv (trimBytes t), u, now),
                     updatedAt := now } else c, fun c => ?_, ?_⟩
          · by_cases hc : c.cid = cid
            · simp [hc]
            · simp [hc]
          · simp [sendMessage, ht, hf, hp]

theorem step_preserves (db db' : DB) (hstep : Step db db') (h : ConvInv db) :
    ConvInv db' := by
  cases hstep with
  | start u p =>
    rcases startRace_snd db db u p with heq | ⟨pid, hne, heq⟩
    · unfold startConversation
      rw [heq]
      exact h
    · unfold startConversation
      rw [heq]
      exact rawCreate_preserves db _ (sortPair_sorted u pid hne) h
  | rawCreate a b hne =>
    exact rawCreate_preserves db _ (sortPair_sorted a b hne) h
  | inbox u page limit => exact h
  | history u cid before limit =>
    unfold ConvInv
    rw [getMessages_convs]
    exact h
  | send u cid text iv now =>
    obtain ⟨f, hf, heq⟩ := sendMessage_convs db u cid text iv now
    unfold ConvInv
    rw [heq]
    exact convListInv_map _ f hf h
  | sockRead u cid =>
    unfold ConvInv
    rw [markReadHandler_convs]
    exact h

theorem reach_preserves (db0 db : DB) (h0 : ConvInv db0) (hr : Reach db0 db) :
    ConvInv db := by
  induction hr with
  | refl => exact h0
  | tail _ hstep ih => exact step_preserves _ _ hstep ih

/-- C8's amended content: a body that does not carry the `enc:` tag and
contains at most one colon is returned unchanged by `decrypt`. -/
theorem decrypt_plain (s : List Nat) (htag : s.take 4 ≠ encTag)
    (hcolon : s.count colon ≤ 1) : decrypt s = s := by
  by_cases hne : s = []
  · rw [decrypt, if_pos hne]
  rw [decrypt, if_neg hne, if_neg htag]
  by_cases hmem : colon ∈ s
  · rw [if_pos hmem]
    have hlen : (splitColon s).length < 3 := by
      rw [splitColon_length]
      omega
    rw [if_neg (by omega)]
  · rw [if_neg hmem]

/-! ## Lemmas about getMessages (C6, C7, C9) -/

/-- The raw (pre-decryption) page of a history query: the `limit + 1` fetch
with the extra row popped when present. -/
def pageRaw (db : DB) (cid : Nat) (before : Option Nat) (limit : Nat) : List Msg :=
  let fetched := sortedFetch db cid before limit
  if limit < fetched.length then fetched.take limit else fetched

/-- On a found conversation with a participating caller, `getMessages`
answers 200 with the decrypted, reversed raw page. -/
theorem getMessages_ok (db : DB) (u cid : Nat) (conv : Conversation)
    (hconv : findConv db cid = some conv)
    (hpart : conv.participants.any (fun p => p = u) = true)
    (before : Option Nat) (limit : Nat) :
    (getMessages db u cid before limit).1 =
      .ok ⟨((pageRaw db cid before limit).map
              (fun m => { m with text := decrypt m.text })).reverse,
           decide (limit < (sortedFetch db cid before limit).length),
           (((pageRaw db cid before limit).map
              (fun m => { m with text := decrypt m.text })).reverse).head?.map
             (fun m => m.mid)⟩ := by
  have hbool : (!conv.participants.any (fun p => p = u)) = false := by
    simp [hpart]
  simp only [getMessages, hconv, hbool, Bool.false_eq_true, if_false, pageRaw]
  by_cases hmore : limit < (sortedFetch db cid before limit).length
  · simp [hmore]
  · simp [hmore]

/-! ## Lemmas for the pagination chain (C3) -/

/-- Strictly newer: the strict version of the fetch ordering. -/
def strictNewer (a b : Msg) : Prop := b.createdAt < a.createdAt

instance : IsAntisymm Msg strictNewer :=
  ⟨fun _ _ h1 h2 => (Nat.lt_irrefl _ (Nat.lt_trans h1 h2)).elim⟩

/-- A function on messages that changes neither the id, nor the owning
conversation, nor the timestamp (such as the read-marking update). -/
def preserves3 (g : Msg → Msg) : Prop :=
  ∀ m, (g m).mid = m.mid ∧ (g m).conversationId = m.conversationId ∧
    (g m).createdAt = m.createdAt

theorem markReadUpdate_preserves3 (u cid : Nat) :
    preserves3 (markReadUpdate u cid) := by
  intro m
  unfold markReadUpdate
  by_cases h : unreadPred u cid m
  · rw [if_pos h]
    exact ⟨rfl, rfl, rfl⟩
  · rw [if_neg h]
    exact ⟨rfl, rfl, rfl⟩

theorem preserves3_comp (g1 g2 : Msg → Msg) (h1 : preserves3 g1)
    (h2 : preserves3 g2) : preserves3 (g1 ∘ g2) := by
  intro m
  obtain ⟨a1, b1, c1⟩ := h1 (g2 m)
  obtain ⟨a2, b2, c2⟩ := h2 m
  exact ⟨a1.trans a2, b1.trans b2, c1.trans c2⟩

theorem orderedInsert_map (g : Msg → Msg)
    (hg : ∀ m, (g m).createdAt = m.createdAt) (a : Msg) :
    ∀ l : List Msg,
      List.orderedInsert newerFirst (g a) (l.map g) =
        (List.orderedInsert newerFirst a l).map g
  | [] => rfl
  | x :: xs => by
    have hiff : newerFirst (g a) (g x) ↔ newerFirst a x := by
      unfold newerFirst
      rw [hg, hg]
    simp only [List.orderedInsert, List.map_cons]
    by_cases h : newerFirst a x
    · rw [if_pos (hiff.mpr h), if_pos h, List.map_cons]
      rw [List.map_cons]
    · rw [if_neg (fun hc => h (hiff.mp hc)), if_neg h, List.map_cons,
        orderedInsert_map g hg a xs]

theorem insertionSort_map (g : Msg → Msg)
    (hg : ∀ m, (g m).createdAt = m.createdAt) :
    ∀ l : List Msg,
      List.insertionSort newerFirst (l.map g) =
        (List.insertionSort newerFirst l).map g
  | [] => rfl
  | x :: xs => by
    simp only [List.map_cons, List.insertionSort]
    rw [insertionSort_map g hg xs, orderedInsert_map g hg]

theorem filter_map_comm (g : Msg → Msg) (p q : Msg → Bool)
    (hpq : ∀ m, p (g m) = q m) (l : List Msg) :
    (l.map g).filter p = (l.filter q).map g := by
  rw [List.filter_map]
  congr 1
  apply List.filter_congr
  intro m _
  exact hpq m

/-- With globally distinct message ids, `findById` on the collection returns
exactly the element carrying the id. -/
theorem find?_mid_nodup :
    ∀ l : List Msg, (l.map (fun m => m.mid)).Nodup →
      ∀ m ∈ l, l.find? (fun x => x.mid = m.mid) = some m
  | [], _, m, hm => absurd hm (List.not_mem_nil m)
  | x :: xs, hnd, m, hm => by
    rcases List.mem_cons.mp hm with rfl | hm'
    · rw [List.find?_cons_of_pos xs (by simp)]
    · have hxm : x.mid ≠ m.mid := by
        simp only [List.map_cons, List.nodup_cons] at hnd
        intro he
        exact hnd.1 (he ▸ List.mem_map_of_mem (fun m => m.mid) hm')
      rw [List.find?_cons_of_neg xs (by simp [hxm])]
      have hnd' : (xs.map (fun m => m.mid)).Nodup := by
        simp only [List.map_cons, List.nodup_cons] at hnd
        exact hnd.2
      exact find?_mid_nodup xs hnd' m hm'

/-- A weakly descending run with pairwise distinct timestamps is strictly
descending. -/
theorem sorted_strict (l : List Msg) (hs : l.Sorted newerFirst)
    (hnd : l.Pairwise (fun m1 m2 => m1.createdAt ≠ m2.createdAt)) :
    l.Pairwise strictNewer := by
  refine (List.Pairwise.and hs hnd).imp ?_
  intro a b hab
  obtain ⟨h1, h2⟩ := hab
  unfold newerFirst at h1
  unfold strictNewer
  omega

/-- Sorting commutes with filtering when the timestamps are pairwise
distinct: both sides are strictly descending permutations of each other. -/
theorem sort_filter_eq (p : Msg → Bool) (base : List Msg)
    (hne : base.Pairwise (fun m1 m2 => m1.createdAt ≠ m2.createdAt)) :
    List.insertionSort newerFirst (base.filter p) =
      (List.insertionSort newerFirst base).filter p := by
  have hsym : ∀ {x y : Msg}, x.createdAt ≠ y.createdAt →
      y.createdAt ≠ x.createdAt := fun h => h.symm
  have hpermbase : (List.insertionSort newerFirst base).Perm base :=
    List.perm_insertionSort newerFirst base
  have hperm : (List.insertionSort newerFirst (base.filter p)).Perm
      ((List.insertionSort newerFirst base).filter p) :=
    (List.perm_insertionSort newerFirst (base.filter p)).trans
      (hpermbase.filter p).symm
  have hs1 : (List.insertionSort newerFirst (base.filter p)).Pairwise strictNewer := by
    apply sorted_strict
    · exact List.sorted_insertionSort newerFirst (base.filter p)
    · exact ((List.perm_insertionSort newerFirst (base.filter p)).pairwise_iff
        hsym).mpr (hne.filter p)
  have hs2 : ((List.insertionSort newerFirst base).filter p).Pairwise strictNewer := by
    apply sorted_strict
    · exact List.Pairwise.filter p (List.sorted_insertionSort newerFirst base)
    · exact List.Pairwise.filter p ((hpermbase.pairwise_iff hsym).mpr hne)
  exact List.eq_of_perm_of_sorted hperm hs1 hs2

/-- On a strictly descending list, filtering strictly below the timestamp of
the element at position `k` yields exactly the suffix after position `k` —
the correctness core of the `$lt`-cursor page. -/
theorem filter_lt_eq_drop :
    ∀ (l : List Msg), l.Pairwise strictNewer →
      ∀ (k : Nat) (cm : Msg), l[k]? = some cm →
        l.filter (fun m => m.createdAt < cm.createdAt) = l.drop (k + 1)
  | [], _, k, cm, h => by simp at h
  | x :: xs, hp, 0, cm, h => by
    have hcm : x = cm := by simpa using h
    subst hcm
    rw [List.filter_cons_of_neg (by simp)]
    have hall : ∀ y ∈ xs, (decide (y.createdAt < x.createdAt)) = true := by
      intro y hy
      have hlt := (List.pairwise_cons.mp hp).1 y hy
      unfold strictNewer at hlt
      simpa using hlt
    rw [List.filter_eq_self.mpr hall]
    rfl
  | x :: xs, hp, k + 1, cm, h => by
    have hxk : xs[k]? = some cm := by simpa using h
    have hmem : cm ∈ xs := List.getElem?_mem hxk
    have hlt : cm.createdAt < x.createdAt := (List.pairwise_cons.mp hp).1 cm hmem
    rw [List.filter_cons_of_neg (by simp; omega)]
    rw [filter_lt_eq_drop xs (List.pairwise_cons.mp hp).2 k cm hxk]
    rfl

/-- The full equation of a successful `getMessages` call: the answered page,
the read-marked store, and the (empty) event list. -/
theorem getMessages_eq (db : DB) (u cid : Nat) (conv : Conversation)
    (hconv : findConv db cid = some conv)
    (hpart : conv.participants.any (fun p => p = u) = true)
    (before : Option Nat) (limit : Nat) :
    getMessages db u cid before limit =
      (.ok ⟨((pageRaw db cid before limit).map
               (fun m => { m with text := decrypt m.text })).reverse,
            decide (limit < (sortedFetch db cid before limit).length),
            (((pageRaw db cid before limit).map
               (fun m => { m with text := decrypt m.text })).reverse).head?.map
              (fun m => m.mid)⟩,
       { db with msgs := db.msgs.map (markReadUpdate u cid) }, []) := by
  have hbool : (!conv.participants.any (fun p => p = u)) = false := by
    simp [hpart]
  simp only [getMessages, hconv, hbool, Bool.false_eq_true, if_false, pageRaw]
  by_cases hmore : limit < (sortedFetch db cid before limit).length
  · simp [hmore]
  · simp [hmore]

/-- The full conversation log sorted newest-first — the reference list the
pagination chain must enumerate. -/
def sortedConv (db : DB) (cid : Nat) : List Msg :=
  List.insertionSort newerFirst (convMsgs db cid)

/-- The mid projection of a decrypted copy of a message list is unchanged. -/
theorem map_mid_decrypt (l : List Msg) :
    (l.map (fun m => { m with text := decrypt m.text })).map (fun m => m.mid) =
      l.map (fun m => m.mid) := by
  rw [List.map_map]
  rfl

/-- The mid projection ignores a `preserves3` transformation. -/
theorem map_mid_of_preserves3 (g : Msg → Msg) (hg : preserves3 g)
    (l : List Msg) :
    (l.map g).map (fun m => m.mid) = l.map (fun m => m.mid) := by
  rw [List.map_map]
  have : ((fun m => m.mid) ∘ g) = fun m : Msg => m.mid :=
    funext (fun m => (hg m).1)
  rw [this]

/-- The pagination-chain invariant: starting the chain at cursor position
`k` of the sorted log — through any read-marked variant `db'` of the store —
enumerates exactly the messages after position `k`, chronologically. -/
theorem historyChain_complete_aux (db : DB) (u cid : Nat)
    (conv : Conversation) (hconv : findConv db cid = some conv)
    (hpart : conv.participants.any (fun p => p = u) = true)
    (limit : Nat) (hlim : 0 < limit)
    (hids : (db.msgs.map (fun m => m.mid)).Nodup)
    (htimes : (convMsgs db cid).Pairwise
      (fun m1 m2 => m1.createdAt ≠ m2.createdAt)) :
    ∀ (fuel : Nat) (g : Msg → Msg), preserves3 g → ∀ (db' : DB),
      db'.msgs = db.msgs.map g → db'.convs = db.convs →
      ∀ (k : Nat) (cursorOpt : Option Nat),
      ((k = 0 ∧ cursorOpt = none) ∨
        (0 < k ∧ ∃ cm, (sortedConv db cid)[k - 1]? = some cm ∧
          cursorOpt = some cm.mid)) →
      (sortedConv db cid).length - k ≤ fuel * limit →
      (historyChain u cid limit db' cursorOpt fuel).map (fun m => m.mid) =
        (((sortedConv db cid).drop k).reverse).map (fun m => m.mid) := by
  have hsym : ∀ {x y : Msg}, x.createdAt ≠ y.createdAt →
      y.createdAt ≠ x.createdAt := fun h => h.symm
  have hLperm : (sortedConv db cid).Perm (convMsgs db cid) :=
    List.perm_insertionSort newerFirst (convMsgs db cid)
  have hLstrict : (sortedConv db cid).Pairwise strictNewer :=
    sorted_strict _ (List.sorted_insertionSort newerFirst (convMsgs db cid))
      ((hLperm.pairwise_iff hsym).mpr htimes)
  intro fuel
  induction fuel with
  | zero =>
    intro g hg db' hmsgs hconvs k cursorOpt hcursor hfuel
    have hdrop : (sortedConv db cid).drop k = [] :=
      List.drop_eq_nil_of_le (by omega)
    simp [historyChain, hdrop]
  | succ fuel ih =>
    intro g hg db' hmsgs hconvs k cursorOpt hcursor hfuel
    -- the conversation is still found, with the same participants
    have hconv' : findConv db' cid = some conv := by
      show db'.convs.find? (fun c => c.cid = cid) = some conv
      rw [hconvs]
      exact hconv
    -- the conversation's messages in db' are the g-image of the originals
    have hcm : convMsgs db' cid = (convMsgs db cid).map g := by
      show db'.msgs.filter _ = _
      rw [hmsgs]
      exact filter_map_comm g _ _ (fun m => by rw [(hg m).2.1]) db.msgs
    -- the sorted cursor query equals the g-image of the sorted-log suffix
    have hQ : List.insertionSort newerFirst
        (cursorFilter db' cursorOpt (convMsgs db' cid)) =
        ((sortedConv db cid).drop k).map g := by
      rcases hcursor with ⟨rfl, rfl⟩ | ⟨hkpos, cm, hcm', rfl⟩
      · rw [cursorFilter, hcm, insertionSort_map g (fun m => (hg m).2.2),
          List.drop_zero]
        rfl
      · have hcmL : cm ∈ sortedConv db cid := List.getElem?_mem hcm'
        have hcmconv : cm ∈ convMsgs db cid := hLperm.mem_iff.mp hcmL
        have hcmdb : cm ∈ db.msgs := List.mem_of_mem_filter hcmconv
        have hfind : findMsg db' cm.mid = some (g cm) := by
          show db'.msgs.find? _ = _
          rw [hmsgs, List.find?_map]
          have hpred : ((fun x => decide (x.mid = cm.mid)) ∘ g) =
              fun x : Msg => decide (x.mid = cm.mid) :=
            funext (fun x => by simp [Function.comp, (hg x).1])
          rw [hpred, find?_mid_nodup db.msgs hids cm hcmdb]
          rfl
        rw [cursorFilter, hfind, hcm]
        show List.insertionSort newerFirst
            ((List.map g (convMsgs db cid)).filter
              (fun m => decide (m.createdAt < (g cm).createdAt))) =
          ((sortedConv db cid).drop k).map g
        rw [filter_map_comm g _ _
          (fun m => by rw [(hg m).2.2, (hg cm).2.2]) (convMsgs db cid)]
        rw [insertionSort_map g (fun m => (hg m).2.2)]
        rw [sort_filter_eq _ _ htimes]
        have hd : (List.insertionSort newerFirst (convMsgs db cid)).filter
            (fun m => decide (m.createdAt < cm.createdAt)) =
            (sortedConv db cid).drop ((k - 1) + 1) :=
          filter_lt_eq_drop (sortedConv db cid) hLstrict (k - 1) cm hcm'
        have hk1 : k - 1 + 1 = k := by omega
        rw [hk1] at hd
        rw [hd]
    have hsf : sortedFetch db' cid cursorOpt limit =
        (((sortedConv db cid).drop k).take (limit + 1)).map g := by
      rw [sortedFetch, hQ, List.map_take]
    have hgmeq := getMessages_eq db' u cid conv hconv' hpart cursorOpt limit
    simp only [historyChain, hgmeq]
    have hmsgs'' : ({ db' with msgs := db'.msgs.map (markReadUpdate u cid) } : DB).msgs
        = db.msgs.map ((markReadUpdate u cid) ∘ g) := by
      show db'.msgs.map (markReadUpdate u cid) = _
      rw [hmsgs, List.map_map]
    have hconvs'' : ({ db' with msgs := db'.msgs.map (markReadUpdate u cid) } : DB).convs
        = db.convs := hconvs
    have hg'' : preserves3 ((markReadUpdate u cid) ∘ g) :=
      preserves3_comp (markReadUpdate u cid) g (markReadUpdate_preserves3 u cid) hg
    by_cases hn : limit < (sortedConv db cid).length - k
    · -- a full page; the chain continues with the cursor at position k+limit-1
      have hlenf : (sortedFetch db' cid cursorOpt limit).length = limit + 1 := by
        rw [hsf, List.length_map, List.length_take, List.length_drop]
        omega
      have hmore : (decide (limit < (sortedFetch db' cid cursorOpt limit).length)) = true := by
        rw [hlenf]
        simp
      have hminll : min limit (limit + 1) = limit := by omega
      have hpr : pageRaw db' cid cursorOpt limit =
          (((sortedConv db cid).drop k).take limit).map g := by
        rw [pageRaw]
        simp only [hsf]
        rw [if_pos (by rw [List.length_map, List.length_take, List.length_drop]; omega)]
        rw [← List.map_take, List.take_take, hminll]
      have hpagemids : ((((pageRaw db' cid cursorOpt limit).map
            (fun m => { m with text := decrypt m.text })).reverse).map
            (fun m => m.mid)) =
          ((((sortedConv db cid).drop k).take limit).map (fun m => m.mid)).reverse := by
        rw [List.map_reverse, map_mid_decrypt, hpr,
          map_mid_of_preserves3 g hg]
      have hYlen : (((sortedConv db cid).drop k).take limit).length = limit := by
        rw [List.length_take, List.length_drop]
        omega
      have hbound : k + (limit - 1) < (sortedConv db cid).length := by omega
      have hcm2 : ((sortedConv db cid).drop k)[limit - 1]? =
          some ((sortedConv db cid).get ⟨k + (limit - 1), hbound⟩) := by
        rw [List.getElem?_drop]
        rw [List.getElem?_eq_getElem hbound]
        rfl
      have hYlast : (((sortedConv db cid).drop k).take limit).getLast? =
          some ((sortedConv db cid).get ⟨k + (limit - 1), hbound⟩) := by
        rw [List.getLast?_eq_getElem?, hYlen, List.getElem?_take,
          if_pos (by omega : limit - 1 < limit)]
        exact hcm2
      have hcv : ((((pageRaw db' cid cursorOpt limit).map
            (fun m => { m with text := decrypt m.text })).reverse).head?).map
            (fun m => m.mid) =
          some ((sortedConv db cid).get ⟨k + (limit - 1), hbound⟩).mid := by
        rw [List.head?_reverse, List.getLast?_map, hpr, List.getLast?_map, hYlast]
        show some ((g ((sortedConv db cid).get ⟨k + (limit - 1), hbound⟩)).mid) = _
        rw [(hg _).1]
      simp only [hmore, hcv, eq_self_iff_true, if_true]
      have hidx : (sortedConv db cid)[(k + limit) - 1]? =
          some ((sortedConv db cid).get ⟨k + (limit - 1), hbound⟩) := by
        have he : (k + limit) - 1 = k + (limit - 1) := by omega
        rw [he, List.getElem?_eq_getElem hbound]
        rfl
      have hfuel2 : (sortedConv db cid).length - (k + limit) ≤ fuel * limit := by
        rw [Nat.succ_mul] at hfuel
        omega
      have htail := ih ((markReadUpdate u cid) ∘ g) hg''
        { db' with msgs := db'.msgs.map (markReadUpdate u cid) } hmsgs'' hconvs''
        (k + limit) (some ((sortedConv db cid).get ⟨k + (limit - 1), hbound⟩).mid)
        (Or.inr ⟨by omega, (sortedConv db cid).get ⟨k + (limit - 1), hbound⟩,
          hidx, rfl⟩) hfuel2
      rw [List.map_append, htail, hpagemids, List.map_reverse, List.map_reverse]
      have hsplit : (sortedConv db cid).drop k =
          ((sortedConv db cid).drop k).take limit ++
          (sortedConv db cid).drop (k + limit) := by
        rw [← List.drop_drop limit k (sortedConv db cid)]
        exact (List.take_append_drop limit _).symm
      nth_rewrite 2 [hsplit]
      rw [List.map_append, List.reverse_append]
    · -- the final page: everything that is left, and hasMore is false
      have hlenf : (sortedFetch db' cid cursorOpt limit).length =
          (sortedConv db cid).length - k := by
        rw [hsf, List.length_map, List.length_take, List.length_drop]
        omega
      have hmore : (decide (limit < (sortedFetch db' cid cursorOpt limit).length)) = false := by
        rw [hlenf]
        simp
        omega
      have htakeall : ((sortedConv db cid).drop k).take (limit + 1) =
          (sortedConv db cid).drop k := by
        apply List.take_of_length_le
        rw [List.length_drop]
        omega
      have hpr : pageRaw db' cid cursorOpt limit =
          ((sortedConv db cid).drop k).map g := by
        rw [pageRaw]
        simp only [hsf]
        rw [if_neg (by rw [List.length_map, List.length_take, List.length_drop]; omega), htakeall]
      have hpagemids : ((((pageRaw db' cid cursorOpt limit).map
            (fun m => { m with text := decrypt m.text })).reverse).map
            (fun m => m.mid)) =
          (((sortedConv db cid).drop k).map (fun m => m.mid)).reverse := by
        rw [List.map_reverse, map_mid_decrypt, hpr,
          map_mid_of_preserves3 g hg]
      rw [hmore]
      simp only [Bool.false_eq_true, if_false, List.nil_append]
      rw [hpagemids, List.map_reverse]

/-! ## C3 -/

/-- A conversation with two messages sharing the same creation timestamp. -/
def dbC3 : DB := ⟨[], [⟨0, [1, 2], none, 0⟩],
  [⟨10, 0, 1, [104], [1], 5⟩, ⟨11, 0, 1, [105], [1], 5⟩], 20⟩

/-- C3 counterexample: messages 10 and 11 share createdAt = 5; with page
size 1 the chained pages (cursor handed from `hasMore = true`) return only
message 10: the cursor page excludes every message at or after the cursor's
timestamp, which silently skips message 11 — the concatenation does not
contain every message of the conversation. -/
theorem claim3_counterexample :
    (historyChain 2 0 1 dbC3 none 5).map (fun m => m.mid) = [10] ∧
    (11 : Nat) ∈ (convMsgs dbC3 0).map (fun m => m.mid) := by decide

/-- C3 (amended): provided all messages of the conversation carry pairwise
distinct creation timestamps (and ids are globally unique), the chained
history pages — first request cursorless, then repeatedly passing the
returned cursor while `hasMore` holds, with enough requests — enumerate
every message of the conversation exactly once in chronological order: the
concatenation equals the reverse of the newest-first sorted log. -/
theorem claim3_pagination_complete_distinct_times (db : DB) (u cid : Nat)
    (conv : Conversation) (hconv : findConv db cid = some conv)
    (hpart : conv.participants.any (fun p => p = u) = true)
    (limit fuel : Nat) (hlim : 0 < limit)
    (hids : (db.msgs.map (fun m => m.mid)).Nodup)
    (htimes : (convMsgs db cid).Pairwise
      (fun m1 m2 => m1.createdAt ≠ m2.createdAt))
    (hfuel : (convMsgs db cid).length ≤ fuel * limit) :
    (historyChain u cid limit db none fuel).map (fun m => m.mid) =
      ((sortedConv db cid).reverse).map (fun m => m.mid) := by
  have hlen : (sortedConv db cid).length = (convMsgs db cid).length :=
    (List.perm_insertionSort newerFirst (convMsgs db cid)).length_eq
  have hmain := historyChain_complete_aux db u cid conv hconv hpart limit hlim
    hids htimes fuel id (fun m => ⟨rfl, rfl, rfl⟩) db (by rw [List.map_id]) rfl
    0 none (Or.inl ⟨rfl, rfl⟩) (by omega)
  simpa using hmain

/-- A conversation whose three messages have pairwise distinct timestamps. -/
def dbC3w : DB := ⟨[], [⟨0, [1, 2], none, 0⟩],
  [⟨10, 0, 1, [104], [1], 5⟩, ⟨11, 0, 1, [105], [1], 6⟩,
   ⟨12, 0, 1, [106], [1], 7⟩], 20⟩

theorem claim3_witness :
    (0 : Nat) < 1 ∧ (dbC3w.msgs.map (fun m => m.mid)).Nodup ∧
    (convMsgs dbC3w 0).Pairwise (fun m1 m2 => m1.createdAt ≠ m2.createdAt) ∧
    (convMsgs dbC3w 0).length ≤ 9 * 1 ∧
    (historyChain 2 0 1 dbC3w none 9).map (fun m => m.mid) =
      ((sortedConv dbC3w 0).reverse).map (fun m => m.mid) := by
  refine ⟨by decide, by decide, by decide, by decide, ?_⟩
  exact claim3_pagination_complete_distinct_times dbC3w 2 0 ⟨0, [1, 2], none, 0⟩
    (by decide) (by decide) 1 9 (by decide) (by decide) (by decide) (by decide)

/-! ## C1 -/

/-- C1: in every state reachable from a state satisfying the store invariant
— through `startOrGetConversation`, `send`, `getHistory`, `listInbox`,
`markRead`, and bare store-level creates racing past the `findOne` — any two
stored conversations with the same unordered participant pair are the same
conversation; the `rawCreate` steps included in `Reach` show the uniqueness
is enforced by the store's unique index, not only by the find-before-create
discipline. -/
theorem claim1_conversation_pair_unique (db0 db : DB) (h0 : ConvInv db0)
    (hr : Reach db0 db) :
    ∀ c1 ∈ db.convs, ∀ c2 ∈ db.convs,
      c1.participants.toFinset = c2.participants.toFinset → c1 = c2 := by
  have hinv := reach_preserves db0 db h0 hr
  intro c1 hc1 c2 hc2 hset
  obtain ⟨a, b, hab, he1⟩ := hinv.1 c1 hc1
  obtain ⟨a2, b2, hab2, he2⟩ := hinv.1 c2 hc2
  apply hinv.2 c1 hc1 c2 hc2
  rw [he1, he2]
  rw [he1, he2] at hset
  have h1 : a ∈ ([a2, b2] : List Nat).toFinset := by rw [← hset]; simp
  have h2 : b ∈ ([a2, b2] : List Nat).toFinset := by rw [← hset]; simp
  have h3 : a2 ∈ ([a, b] : List Nat).toFinset := by rw [hset]; simp
  have h4 : b2 ∈ ([a, b] : List Nat).toFinset := by rw [hset]; simp
  simp only [List.toFinset_cons, List.toFinset_nil, insert_emptyc_eq,
    Finset.mem_insert, Finset.mem_singleton] at h1 h2 h3 h4
  have : a = a2 ∧ b = b2 := by omega
  rw [this.1, this.2]

/-- A concrete initial state for the C1 witness: two mutual friends, no
conversations. -/
def dbC1 : DB := ⟨[⟨1, [2], []⟩, ⟨2, [1], []⟩], [], [], 0⟩

/-- The state after user 1 starts a conversation with user 2. -/
def dbC1' : DB := (startConversation dbC1 1 (some 2)).2

/-- The conversation created in the C1 witness run. -/
def convC1 : Conversation := ⟨0, [1, 2], none, 0⟩

theorem claim1_witness : ConvInv dbC1 ∧ convC1 = convC1 :=
  ⟨⟨fun c hc => absurd hc (List.not_mem_nil c),
    fun c1 hc1 => absurd hc1 (List.not_mem_nil c1)⟩,
   claim1_conversation_pair_unique dbC1 dbC1'
     ⟨fun c hc => absurd hc (List.not_mem_nil c),
      fun c1 hc1 => absurd hc1 (List.not_mem_nil c1)⟩
     (Relation.ReflTransGen.single (Step.start dbC1 1 (some 2)))
     convC1 (by decide) convC1 (by decide) rfl⟩

/-! ## C2 -/

/-- C2: for every non-empty plaintext byte string and every fresh 16-byte
IV, opening the sealed wire text recovers the plaintext exactly:
`Message.decrypt (Message.encrypt P) = P`. -/
theorem claim2_seal_open_roundtrip (iv p : List Nat) (h16 : iv.length = 16)
    (hivb : allBytes iv) (hpb : allBytes p) (hne : p ≠ []) :
    decrypt (encrypt iv p) = p :=
  decrypt_encrypt iv p h16 hivb hpb hne

theorem claim2_witness :
    (List.replicate 16 0).length = 16 ∧ allBytes (List.replicate 16 0) ∧
    allBytes [104, 105] ∧ ([104, 105] : List Nat) ≠ [] ∧
    decrypt (encrypt (List.replicate 16 0) [104, 105]) = [104, 105] :=
  ⟨by decide, by decide, by decide, by decide,
   claim2_seal_open_roundtrip (List.replicate 16 0) [104, 105]
     (by decide) (by decide) (by decide) (by decide)⟩

/-! ## C4 -/

/-- A state where user 1 lists user 2 as a friend, but user 2 does not list
user 1 back and has blocked user 1. -/
def dbC4 : DB := ⟨[⟨1, [2], []⟩, ⟨2, [], [1]⟩], [], [], 0⟩

/-- C4 counterexample: the gate predicate answers true for (1, 2) although 1
and 2 are not mutual friends and 2 has blocked 1, refuting the claimed
"true iff mutual friends and neither has blocked the other". -/
theorem claim4_counterexample :
    areFriends dbC4 1 2 = true ∧ specCanMessage dbC4 1 2 = false := by decide

/-- C4 (amended): `areFriends(A, B)` is true iff A's own record lists B as a
friend and A has not blocked B — B's friend list and block list are never
consulted; and whenever it is false, `startConversation` fails with 403 and
leaves the store unchanged. -/
theorem claim4_gate_one_directional (db : DB) (u p : Nat) :
    (areFriends db u p = true ↔
      ∃ urec, findUser db u = some urec ∧
        urec.friends.any (fun f => f = p) = true ∧
        urec.blocked_users.any (fun x => x = p) = false) ∧
    (u ≠ p → areFriends db u p = false →
      startConversation db u (some p) =
        (.err 403 "You must be friends to start a conversation", db)) := by
  constructor
  · cases hu : findUser db u with
    | none => simp [areFriends, hu]
    | some urec =>
      simp [areFriends, hu]
  · intro hne hgate
    simp only [startConversation, startConversationRace, if_neg hne, hgate,
      Bool.not_false, if_true]

theorem claim4_witness :
    (1 : Nat) ≠ 2 ∧ areFriends dbC4 2 1 = false ∧
    startConversation dbC4 2 (some 1) =
      (.err 403 "You must be friends to start a conversation", dbC4) := by
  refine ⟨by decide, by decide, ?_⟩
  exact (claim4_gate_one_directional dbC4 2 1).2 (by decide) (by decide)

/-! ## C5 -/

/-- Find-time state of the C5 race: two mutual friends, no conversation. -/
def dbF5 : DB := ⟨[⟨1, [2], []⟩, ⟨2, [1], []⟩], [], [], 0⟩

/-- Create-time state of the C5 race: a concurrent call has already inserted
the conversation for the pair (1, 2). -/
def dbC5 : DB := ⟨[⟨1, [2], []⟩, ⟨2, [1], []⟩], [⟨7, [1, 2], none, 0⟩], [], 8⟩

/-- C5 counterexample: when the create step of `startConversation` runs
against a state that already holds the pair (the losing side of the race),
the duplicate-key refusal surfaces to the caller as a 500 "Server error" —
there is no fallback lookup returning the winner's conversation. -/
theorem claim5_counterexample :
    (∃ c ∈ dbC5.convs, c.participants = sortPair 1 2) ∧
    startConversationRace dbF5 dbC5 1 (some 2) =
      (.err 500 "Server error", dbC5) := by decide

/-- C5 (amended): for every eligible distinct pair, when the find step sees
no conversation and the create step hits a state already holding the sorted
pair, `startConversation` answers 500 "Server error" and the store is
returned unchanged; the uniqueness violation is never recovered from. -/
theorem claim5_race_surfaces_500 (dbF dbC : DB) (u p : Nat) (hne : u ≠ p)
    (hfr : areFriends dbF u p = true)
    (hfind : dbF.convs.find? (pairQuery (sortPair u p)) = none)
    (hdup : dbC.convs.any (fun c => c.participants = sortPair u p) = true) :
    startConversationRace dbF dbC u (some p) = (.err 500 "Server error", dbC) := by
  simp only [startConversationRace, if_neg hne, hfr, Bool.not_true,
    Bool.false_eq_true, if_false, hfind, insertConv, if_pos hdup]

theorem claim5_witness :
    (1 : Nat) ≠ 2 ∧ areFriends dbF5 1 2 = true ∧
    dbF5.convs.find? (pairQuery (sortPair 1 2)) = none ∧
    dbC5.convs.any (fun c => c.participants = sortPair 1 2) = true ∧
    startConversationRace dbF5 dbC5 1 (some 2) =
      (.err 500 "Server error", dbC5) :=
  ⟨by decide, by decide, by decide, by decide,
   claim5_race_surfaces_500 dbF5 dbC5 1 2 (by decide) (by decide) (by decide)
     (by decide)⟩

/-! ## C6 -/

/-- A state with one conversation between users 1 and 2 holding one message
from user 1 that user 2 has not read. -/
def dbC6 : DB := ⟨[], [⟨0, [1, 2], none, 0⟩], [⟨10, 0, 1, [104], [1], 5⟩], 20⟩

/-- C6 counterexample: user 2 fetches history over the REST path; the fetch
finds (and marks) an unread message, yet the handler emits no event at all —
in particular user 1 receives no `messagesRead` naming user 2, refuting the
claim's REST clause. -/
theorem claim6_counterexample :
    dbC6.msgs.any (unreadPred 2 0) = true ∧
    (getMessages dbC6 2 0 none 30).2.2 = ([] : List Event) := by decide

/-- C6 (amended): the socket `markRead` handler emits `messagesRead` naming
the reader to each other participant exactly when the read-marking update
changed at least one record; the REST history fetch performs the same
read-marking but emits no realtime event. -/
theorem claim6_messagesRead_emission (db : DB) (u cid : Nat)
    (conv : Conversation) (hconv : findConv db cid = some conv)
    (hpart : conv.participants.any (fun p => p = u) = true) :
    ((markReadHandler db u cid).2 =
      if db.msgs.any (unreadPred u cid) then
        (conv.participants.filter (fun p => !(p = u))).map
          (fun p => Event.messagesRead p cid u)
      else []) ∧
    (∀ (before : Option Nat) (limit : Nat),
      (getMessages db u cid before limit).2.2 = ([] : List Event)) := by
  have hbool : (!conv.participants.any (fun p => p = u)) = false := by
    simp [hpart]
  constructor
  · by_cases hany : db.msgs.any (unreadPred u cid) = true
    · have hpos : 0 < db.msgs.countP (unreadPred u cid) := by
        rw [List.countP_pos_iff]
        obtain ⟨x, hx, hpx⟩ := List.any_eq_true.mp hany
        exact ⟨x, hx, hpx⟩
      simp [markReadHandler, hconv, hbool, hany, hpos]
    · have hzero : ¬ 0 < db.msgs.countP (unreadPred u cid) := by
        rw [List.countP_pos_iff]
        intro ⟨x, hx, hpx⟩
        exact hany (List.any_eq_true.mpr ⟨x, hx, hpx⟩)
      simp [markReadHandler, hconv, hbool, hany, hzero]
  · intro before limit
    simp [getMessages, hconv, hbool]

theorem claim6_witness :
    findConv dbC6 0 = some ⟨0, [1, 2], none, 0⟩ ∧
    (⟨0, [1, 2], none, 0⟩ : Conversation).participants.any
      (fun p => p = 2) = true ∧
    (markReadHandler dbC6 2 0).2 =
      (if dbC6.msgs.any (unreadPred 2 0) then
        ((⟨0, [1, 2], none, 0⟩ : Conversation).participants.filter
          (fun p => !(p = 2))).map (fun p => Event.messagesRead p 0 2)
      else []) :=
  ⟨by decide, by decide,
   (claim6_messagesRead_emission dbC6 2 0 ⟨0, [1, 2], none, 0⟩ (by decide)
     (by decide)).1⟩

/-! ## C7 -/

/-- C7: when a stored body's authenticated decryption fails, `decrypt`
answers the sentinel rather than raising, and a history fetch of the
containing conversation still succeeds: the page is the decryption map of
the raw page, the corrupted body renders as the sentinel, and every other
(validly sealed) message of the conversation renders as its plaintext. -/
theorem claim7_corrupted_message_degrades (db : DB) (u cid : Nat)
    (conv : Conversation) (hconv : findConv db cid = some conv)
    (hpart : conv.participants.any (fun p => p = u) = true)
    (before : Option Nat) (limit : Nat)
    (bad : Msg) (_hbadmem : bad ∈ db.msgs) (_hbadconv : bad.conversationId = cid)
    (hbadfail : encBranchFails bad.text)
    (pf ivf : Msg → List Nat)
    (hothers : ∀ m ∈ db.msgs, m ≠ bad → m.conversationId = cid →
      m.text = encrypt (ivf m) (pf m) ∧ (ivf m).length = 16 ∧
      allBytes (ivf m) ∧ allBytes (pf m) ∧ pf m ≠ []) :
    ∃ page : HistoryPage,
      (getMessages db u cid before limit).1 = .ok page ∧
      page.messages.map (fun m => (m.mid, m.text)) =
        ((pageRaw db cid before limit).reverse).map
          (fun m => (m.mid, decrypt m.text)) ∧
      decrypt bad.text = sentinel ∧
      (∀ m ∈ db.msgs, m ≠ bad → m.conversationId = cid →
        decrypt m.text = pf m) := by
  refine ⟨_, getMessages_ok db u cid conv hconv hpart before limit, ?_, ?_, ?_⟩
  · simp only [List.map_reverse, List.map_map]
    rfl
  · exact decrypt_sentinel_of_fail bad.text hbadfail
  · intro m hm hmne hmcid
    obtain ⟨htext, h16, hivb, hpb, hpne⟩ := hothers m hm hmne hmcid
    rw [htext]
    exact decrypt_encrypt (ivf m) (pf m) h16 hivb hpb hpne

/-- The valid sealed message of the C7 witness state. -/
def msgC7good : Msg := ⟨10, 0, 1, encrypt (List.replicate 16 0) [104], [1], 5⟩

/-- The corrupted message of the C7 witness state: an `enc:`-tagged body
whose decryption fails. -/
def msgC7bad : Msg := ⟨11, 0, 1, [101, 110, 99, 58, 65], [1], 6⟩

/-- The C7 witness state. -/
def dbC7 : DB := ⟨[], [⟨0, [1, 2], none, 0⟩], [msgC7good, msgC7bad], 20⟩

theorem claim7_witness :
    findConv dbC7 0 = some ⟨0, [1, 2], none, 0⟩ ∧
    msgC7bad ∈ dbC7.msgs ∧ encBranchFails msgC7bad.text ∧
    ∃ page : HistoryPage,
      (getMessages dbC7 2 0 none 30).1 = .ok page ∧
      page.messages.map (fun m => (m.mid, m.text)) =
        ((pageRaw dbC7 0 none 30).reverse).map
          (fun m => (m.mid, decrypt m.text)) ∧
      decrypt msgC7bad.text = sentinel ∧
      (∀ m ∈ dbC7.msgs, m ≠ msgC7bad → m.conversationId = 0 →
        decrypt m.text = (fun _ => [104]) m) := by
  refine ⟨by decide, by decide, by decide, ?_⟩
  exact claim7_corrupted_message_degrades dbC7 2 0 ⟨0, [1, 2], none, 0⟩
    (by decide) (by decide) none 30 msgC7bad (by decide) (by decide) (by decide)
    (fun _ => [104]) (fun _ => List.replicate 16 0)
    (by
      intro m hm hmne _
      have hm' : m = msgC7good ∨ m = msgC7bad := by
        simpa [dbC7] using hm
      rcases hm' with rfl | rfl
      · exact ⟨rfl, by decide, by decide, by decide, by decide⟩
      · exact absurd rfl hmne)

/-! ## C8 -/

/-- C8 counterexample: the raw plaintext "a:b:c" — never produced by `seal`
and not `enc:`-tagged — contains two colons, so `decrypt` attempts the
legacy hex-triplet parse, which fails and degrades to the sentinel instead
of returning the text unchanged. -/
theorem claim8_counterexample :
    ([97, 58, 98, 58, 99] : List Nat).take 4 ≠ encTag ∧
    decrypt [97, 58, 98, 58, 99] = sentinel ∧
    decrypt [97, 58, 98, 58, 99] ≠ [97, 58, 98, 58, 99] := by decide

/-- C8 (amended): a stored body that does not start with the `enc:` tag is
returned unchanged by `decrypt` provided it contains at most one colon; with
two or more colons the body is treated as the legacy wire format instead. -/
theorem claim8_plain_preserved (s : List Nat) (htag : s.take 4 ≠ encTag)
    (hcolon : s.count colon ≤ 1) : decrypt s = s :=
  decrypt_plain s htag hcolon

theorem claim8_witness :
    ([104, 105, 58, 106] : List Nat).take 4 ≠ encTag ∧
    ([104, 105, 58, 106] : List Nat).count colon ≤ 1 ∧
    decrypt [104, 105, 58, 106] = [104, 105, 58, 106] :=
  ⟨by decide, by decide,
   claim8_plain_preserved [104, 105, 58, 106] (by decide) (by decide)⟩

/-! ## C9 -/

/-- A state with one conversation and one message, for the C9 counterexample. -/
def dbC9 : DB := ⟨[], [⟨0, [1, 2], none, 0⟩], [⟨10, 0, 1, [104], [1], 5⟩], 20⟩

/-- C9 counterexample: a history request whose `before` cursor (99) matches
no message succeeds with a page instead of failing with a not-found error. -/
theorem claim9_counterexample :
    (∀ m ∈ dbC9.msgs, m.mid ≠ 99) ∧
    (getMessages dbC9 2 0 (some 99) 30).1.isOk = true := by decide

/-- C9 (amended): when the `before` cursor references no existing message,
`getMessages` silently ignores the cursor and behaves exactly as a request
without one (404 is reserved for a missing conversation). -/
theorem claim9_missing_cursor_ignored (db : DB) (u cid limit : Nat) (b : Nat)
    (hb : ∀ m ∈ db.msgs, m.mid ≠ b) :
    getMessages db u cid (some b) limit = getMessages db u cid none limit := by
  have hfind : findMsg db b = none := by
    rw [findMsg, List.find?_eq_none]
    intro m hm
    simp [hb m hm]
  have hcf : cursorFilter db (some b) (convMsgs db cid) =
      cursorFilter db none (convMsgs db cid) := by
    simp [cursorFilter, hfind]
  simp only [getMessages, sortedFetch, hcf]

theorem claim9_witness :
    (∀ m ∈ dbC9.msgs, m.mid ≠ 99) ∧
    getMessages dbC9 2 0 (some 99) 30 = getMessages dbC9 2 0 none 30 :=
  ⟨by decide,
   claim9_missing_cursor_ignored dbC9 2 0 30 99 (by decide)⟩

/-! ## C10 -/

/-- C10: a `typing`/`stopTyping` event from a connected user naming any
existing conversation is relayed as `userTyping`/`userStopTyping` to every
participant other than the emitter; when the emitter is not a participant at
all, every participant of the named conversation receives it — the handlers
never check the emitter's membership. -/
theorem claim10_typing_without_participant_check (db : DB) (u cid : Nat)
    (conv : Conversation) (hconv : findConv db cid = some conv)
    (hnp : u ∉ conv.participants) :
    typingHandler db u cid =
      conv.participants.map (fun p => Event.userTyping p cid u) ∧
    stopTypingHandler db u cid =
      conv.participants.map (fun p => Event.userStopTyping p cid u) := by
  have hfilter : conv.participants.filter (fun p => !(p = u)) =
      conv.participants := by
    rw [List.filter_eq_self]
    intro a ha
    simp only [Bool.not_eq_eq_eq_not, Bool.not_true, decide_eq_false_iff_not]
    intro he
    exact hnp (he ▸ ha)
  constructor
  · simp [typingHandler, hconv, hfilter]
  · simp [stopTypingHandler, hconv, hfilter]

/-- The C10 witness state: a conversation between users 1 and 2; user 7 is
not a participant. -/
def dbC10 : DB := ⟨[], [⟨0, [1, 2], none, 0⟩], [], 20⟩

theorem claim10_witness :
    findConv dbC10 0 = some ⟨0, [1, 2], none, 0⟩ ∧
    (7 : Nat) ∉ (⟨0, [1, 2], none, 0⟩ : Conversation).participants ∧
    typingHandler dbC10 7 0 =
      [Event.userTyping 1 0 7, Event.userTyping 2 0 7] := by
  refine ⟨by decide, by decide, ?_⟩
  have h := (claim10_typing_without_participant_check dbC10 7 0
    ⟨0, [1, 2], none, 0⟩ (by decide) (by decide)).1
  rw [h]
  decide

end VacancyChat
